import Mathlib

/-!
Verification of the fetch/merge pipeline of `data_sources.py` (klaviyo-pulse).

The pipeline is shallowly embedded:
* JSON cell values become the inductive `Value` (numbers as rationals,
  strings, booleans, and a `missing` marker standing for Python `None` /
  pandas `NaN`).
* a pandas `DataFrame` built from a list of row dicts becomes `DF`, a list
  of rows, each row an ordered association list of column name / value
  pairs; `df.empty` corresponds to the row list being empty.
* the aiohttp layer becomes a pure `server` function from URL to a
  response record; `_request_json` becomes `request_json`, returning
  `Except HttpRequestError`.
* the two `while next_url:` pagination loops become fuel-indexed
  recursive functions (`reportLoop`, `campaignLoop`); `none` as a result
  means the fuel was exhausted before the loop terminated, so a `some`
  result witnesses termination.  Each loop additionally records the trace
  of requests it issued (method, URL, query params, body), mirroring the
  arguments the Python code passes to `_request_json` on each iteration.
* `asyncio.gather` over pure tasks becomes `gatherSched`: an arbitrary
  completion schedule interleaves task completions, and the results are
  reassembled in task order, so theorems can quantify over every
  completion order.
-/

set_option autoImplicit false

deriving instance DecidableEq for Except

namespace KlaviyoPulse

/-- A JSON / pandas cell value.  `missing` models Python `None` and pandas
`NaN`/`NA`.  Numbers are modelled as rationals. -/
inductive Value : Type where
  | num (q : ℚ)
  | str (s : String)
  | boolean (b : Bool)
  | missing
  deriving DecidableEq

/-- One row of a DataFrame: an ordered association list from column name to
cell value (the insertion order of a Python dict). -/
abbrev Row : Type := List (String × Value)

/-- A DataFrame built from a list of row dicts, identified with its list of
rows; `df.empty` corresponds to the list being `[]`. -/
abbrev DF : Type := List Row

/-- Value of column `k` in a row: the first entry with that key, if any. -/
def lookupCol (r : Row) (k : String) : Option Value :=
  (r.find? (fun p => decide (p.1 = k))).map Prod.snd

/-- Whether a row has an entry for key `k`. -/
def containsKey (r : Row) (k : String) : Bool :=
  r.any (fun p => decide (p.1 = k))

/-! ## HTTP fetcher (`_request_json`) -/

/-- The error raised by `_request_json` on a status `>= 400` response
(`RuntimeError(f"{method} {url} -> {resp.status}\n{text}")` in the source;
the spec names it `HttpRequestError`).  It carries the request method, the
URL, the status code and the response body text. -/
structure HttpRequestError : Type where
  method : String
  url : String
  status : ℕ
  body : String
  deriving DecidableEq

/-- The message string the source formats into the raised error. -/
def HttpRequestError.message (e : HttpRequestError) : String :=
  e.method ++ " " ++ e.url ++ " -> " ++ toString e.status ++ "\n" ++ e.body

/-- An upstream HTTP response: status code, raw body text, and the parsed
JSON body (typed by the page shape `α` the caller expects). -/
structure HttpResponse (α : Type) : Type where
  status : ℕ
  text : String
  json : α
  deriving DecidableEq

/-- Embedding of `_request_json`: one request, no retry.  Status `>= 400` raises an
`HttpRequestError` carrying method, URL, status and body text; otherwise
the parsed JSON body is returned. -/
def request_json {α : Type} (method url : String) (resp : HttpResponse α) :
    Except HttpRequestError α :=
  if resp.status ≥ 400 then
    Except.error ⟨method, url, resp.status, resp.text⟩
  else
    Except.ok resp.json

/-- The per-request headers built by `_headers`. -/
def headersFor (api_key : String) (is_post : Bool) : List (String × String) :=
  let h := [("Authorization", "Klaviyo-API-Key " ++ api_key),
            ("accept", "application/vnd.api+json"),
            ("revision", "2025-10-15")]
  if is_post then h ++ [("content-type", "application/vnd.api+json")] else h

/-! ## Pagination -/

/-- Query parameters of a GET request. -/
abbrev QueryParams : Type := List (String × String)

/-- The JSON body POSTed to the campaign-values-report endpoint
(`payload` in `get_klaviyo_report_async`). -/
structure ReportPayload : Type where
  start : String
  stop : String
  conversion_metric_id : String
  statistics : List String
  deriving DecidableEq

/-- The fixed statistics list of the report payload. -/
def reportStatistics : List String :=
  ["bounce_rate", "click_rate", "conversion_rate", "delivery_rate",
   "open_rate", "spam_complaint_rate", "unsubscribe_rate",
   "average_order_value", "opens", "clicks", "delivered",
   "spam_complaints", "unsubscribes", "bounced"]

/-- The report request payload for a timeframe and conversion metric. -/
def reportPayload (start stop conversion_metric_id : String) : ReportPayload :=
  ⟨start, stop, conversion_metric_id, reportStatistics⟩

/-- One request issued by a pagination loop: the arguments the code passes
to `_request_json` (method, URL, query params, JSON body). -/
structure RequestRec : Type where
  method : String
  url : String
  params : Option QueryParams
  body : Option ReportPayload
  deriving DecidableEq

/-- One entry of a report page's `results` array: a `groupings` mapping and
a `statistics` mapping. -/
structure ReportEntry : Type where
  groupings : Row
  statistics : Row
  deriving DecidableEq

/-- One page of the report endpoint: the `data.attributes.results` array
and the `links.next` URL (`none` when absent). -/
structure ReportPage : Type where
  results : List ReportEntry
  next : Option String
  deriving DecidableEq

/-- Python `{**a, **b}`: keys of `a` in order (values overridden by `b`
where the key also occurs in `b`), then the keys of `b` not in `a`, in
order, with `b`'s values. -/
def dictUnion (a b : Row) : Row :=
  a.map (fun p =>
    match lookupCol b p.1 with
    | some v => (p.1, v)
    | none => p) ++
  b.filter (fun p => !containsKey a p.1)

/-- The flat row `{**r["groupings"], **r["statistics"]}` built per report
result. -/
def flattenResult (r : ReportEntry) : Row :=
  dictUnion r.groupings r.statistics

/-- The pagination loop of `get_klaviyo_report_async`.  The state is the
remaining fuel, the pending `next_url`, the accumulated rows, and the trace
of requests issued so far.  Every iteration POSTs the original payload (the
source passes `json_body=payload` on each call).  A `none` result means the
fuel ran out with a `next` URL still pending. -/
def reportLoop (server : String → HttpResponse ReportPage) (payload : ReportPayload) :
    ℕ → Option String → List Row → List RequestRec →
    Option (Except HttpRequestError (List Row × List RequestRec))
  | _, none, rows, reqs => some (Except.ok (rows, reqs))
  | 0, some _, _, _ => none
  | fuel + 1, some url, rows, reqs =>
    match request_json "POST" url (server url) with
    | Except.error e => some (Except.error e)
    | Except.ok page =>
      reportLoop server payload fuel page.next
        (rows ++ page.results.map flattenResult)
        (reqs ++ [⟨"POST", url, none, some payload⟩])

/-- The report endpoint URL. -/
def reportUrl : String := "https://a.klaviyo.com/api/campaign-values-reports/"

/-- Embedding of `get_klaviyo_report_async`: paginated POST fetch of the report
endpoint, starting from `reportUrl` with the constructed payload. -/
def get_klaviyo_report_async (conversion_metric_id start stop : String)
    (server : String → HttpResponse ReportPage) (fuel : ℕ) :
    Option (Except HttpRequestError (List Row × List RequestRec)) :=
  reportLoop server (reportPayload start stop conversion_metric_id) fuel
    (some reportUrl) [] []

/-- One entity of a campaign listing page's `data` array: `type`, `id`, and
the nested `attributes` mapping. -/
structure CampaignEntry : Type where
  type : String
  id : String
  attributes : Row
  deriving DecidableEq

/-- One page of the campaign listing endpoint: the `data` array and the
`links.next` URL (`none` when absent). -/
structure CampaignPage : Type where
  data : List CampaignEntry
  next : Option String
  deriving DecidableEq

/-- Python `r["attributes"].get(k)`: the attribute value, or `missing` (Python
`None`) when absent. -/
def attrGet (r : CampaignEntry) (k : String) : Value :=
  match lookupCol r.attributes k with
  | some v => v
  | none => Value.missing

/-- The fixed projection of one campaign entity into a flat row. -/
def campaignRow (r : CampaignEntry) : Row :=
  [("type", Value.str r.type),
   ("campaign_id", Value.str r.id),
   ("name", attrGet r "name"),
   ("status", attrGet r "status"),
   ("archived", attrGet r "archived"),
   ("send_time", attrGet r "send_time"),
   ("scheduled_at", attrGet r "scheduled_at")]

/-- An apostrophe character, used inside the listing filter string. -/
def apos : String := String.singleton (Char.ofNat 39)

/-- The filter string of the campaign listing request. -/
def campaignFilter (start : String) : String :=
  "and(equals(messages.channel," ++ apos ++ "email" ++ apos ++
    "),greater-or-equal(scheduled_at," ++ start ++ "))"

/-- The query parameters of the first campaign listing request. -/
def campaignParams (start : String) : QueryParams :=
  [("filter", campaignFilter start)]

/-- The campaign listing endpoint URL. -/
def campaignsUrl : String := "https://a.klaviyo.com/api/campaigns"

/-- The pagination loop of `get_campaign_details_async`.  After the first
iteration the query params are set to `none` (`next_params = None` in the
source: the `next` link already embeds them), and no body is ever sent. -/
def campaignLoop (server : String → HttpResponse CampaignPage) :
    ℕ → Option String → Option QueryParams → List Row → List RequestRec →
    Option (Except HttpRequestError (List Row × List RequestRec))
  | _, none, _, rows, reqs => some (Except.ok (rows, reqs))
  | 0, some _, _, _, _ => none
  | fuel + 1, some url, ps, rows, reqs =>
    match request_json "GET" url (server url) with
    | Except.error e => some (Except.error e)
    | Except.ok page =>
      campaignLoop server fuel page.next none
        (rows ++ page.data.map campaignRow)
        (reqs ++ [⟨"GET", url, ps, none⟩])

/-- Embedding of `get_campaign_details_async`: paginated GET fetch of the campaign
listing endpoint, starting from `campaignsUrl` with the filter params. -/
def get_campaign_details_async (start : String)
    (server : String → HttpResponse CampaignPage) (fuel : ℕ) :
    Option (Except HttpRequestError (List Row × List RequestRec)) :=
  campaignLoop server fuel (some campaignsUrl) (some (campaignParams start)) [] []

/-- A finite chain of report pages reachable from a start URL: each page is
the successfully parsed (status `< 400`) body served at its URL, each page
but the last carries a `next` link to the following page's URL, and the
last page has no `next` link. -/
inductive ReportChain (server : String → HttpResponse ReportPage) :
    List (String × ReportPage) → Prop where
  | last (u : String) (p : ReportPage) :
      (server u).status < 400 → (server u).json = p → p.next = none →
      ReportChain server [(u, p)]
  | step (u : String) (p : ReportPage) (u2 : String) (p2 : ReportPage)
      (rest : List (String × ReportPage)) :
      (server u).status < 400 → (server u).json = p → p.next = some u2 →
      ReportChain server ((u2, p2) :: rest) →
      ReportChain server ((u, p) :: (u2, p2) :: rest)

/-- A finite chain of campaign listing pages, as for `ReportChain`. -/
inductive CampaignChain (server : String → HttpResponse CampaignPage) :
    List (String × CampaignPage) → Prop where
  | last (u : String) (p : CampaignPage) :
      (server u).status < 400 → (server u).json = p → p.next = none →
      CampaignChain server [(u, p)]
  | step (u : String) (p : CampaignPage) (u2 : String) (p2 : CampaignPage)
      (rest : List (String × CampaignPage)) :
      (server u).status < 400 → (server u).json = p → p.next = some u2 →
      CampaignChain server ((u2, p2) :: rest) →
      CampaignChain server ((u, p) :: (u2, p2) :: rest)

/-! ## Region loader (`_load_one_region`) -/

/-- The join key. -/
def campaignIdKey : String := "campaign_id"

/-- The combined row a pandas inner merge produces for one matching pair:
the left row's columns in order, then the right row's columns except the
join key.  (Suffixing of overlapping non-key columns is not modelled; the
two frames of this pipeline share only the join key.) -/
def mergeRows (r1 r2 : Row) : Row :=
  r1 ++ r2.filter (fun p => decide (p.1 ≠ campaignIdKey))

/-- Pandas `df1.merge(df2, how="inner", on="campaign_id")`: for each left row in
order, each right row (in order) whose `campaign_id` value coincides,
combined by `mergeRows`.  This is pandas' inner-merge row order (left-frame
order, then right-frame order for ties). -/
def mergeInner (df1 df2 : DF) : DF :=
  df1.flatMap (fun r1 =>
    (df2.filter (fun r2 => decide (lookupCol r2 campaignIdKey = lookupCol r1 campaignIdKey))).map
      (fun r2 => mergeRows r1 r2))

/-- Deletion `del df[c]` applied frame-wise: remove column `c` from every row. -/
def dropCol (df : DF) (c : String) : DF :=
  df.map (fun r => r.filter (fun p => decide (p.1 ≠ c)))

/-- Assignment `df[c] = v` on one row: any existing entry for `c` is replaced and the
column is appended. -/
def setRowCol (r : Row) (c : String) (v : Value) : Row :=
  r.filter (fun p => decide (p.1 ≠ c)) ++ [(c, v)]

/-- Assignment `df[c] = v` frame-wise: stamp a constant column onto every row. -/
def setCol (df : DF) (c : String) (v : Value) : DF :=
  df.map (fun r => setRowCol r c v)

/-- The synchronous tail of `_load_one_region`, applied once both fetches
have resolved to frames `df1` (campaigns) and `df2` (report): empty-input
short-circuit, inner merge on `campaign_id`, removal of
`campaign_message_id` and `archived`, and the `account` stamp. -/
def regionTable (name : String) (df1 df2 : DF) : DF :=
  if df1.isEmpty || df2.isEmpty then []
  else
    setCol (dropCol (dropCol (mergeInner df1 df2) "campaign_message_id") "archived")
      "account" (Value.str name)

/-- Embedding of `_load_one_region`: awaiting the two fetch results propagates the
first error (the `asyncio.gather` on the two tasks re-raises it); on
success the region table is computed. -/
def load_one_region (name : String)
    (campaignsRes reportRes : Except HttpRequestError DF) :
    Except HttpRequestError DF :=
  match campaignsRes with
  | Except.error e => Except.error e
  | Except.ok df1 =>
    match reportRes with
    | Except.error e => Except.error e
    | Except.ok df2 => Except.ok (regionTable name df1 df2)

/-- A region's entry in the secrets-derived configuration. -/
structure RegionCfg : Type where
  name : String
  api_key : String
  pixel : String
  deriving DecidableEq

/-! ## Multi-region orchestrator (`load_dashboard_data_async`) -/

/-- The fixed region list of the orchestrator. -/
def regionOrder : List String := ["sg", "intl", "au", "hk", "tw"]

/-- The `NUMERIC_COLS` fixed list of statistic columns coerced to numeric
type. -/
def NUMERIC_COLS : List String :=
  ["bounce_rate", "click_rate", "conversion_rate", "delivery_rate", "open_rate",
   "spam_complaint_rate", "unsubscribe_rate",
   "average_order_value",
   "opens", "clicks", "delivered",
   "spam_complaints", "unsubscribes", "bounced"]

/-- One decimal digit. -/
def digitVal (c : Char) : Option ℕ :=
  if c.isDigit then some (c.toNat - 48) else none

/-- Parse a non-empty digit string into a natural number. -/
def parseNatDigits : List Char → ℕ → Option ℕ
  | [], acc => some acc
  | c :: cs, acc =>
    match digitVal c with
    | some d => parseNatDigits cs (acc * 10 + d)
    | none => none

/-- Parse a non-empty run of decimal digits. -/
def parseDigits (cs : List Char) : Option ℕ :=
  if cs.isEmpty then none else parseNatDigits cs 0

/-- Parse an unsigned decimal literal (`"12"` or `"12.5"`). -/
def parseUnsigned (cs : List Char) : Option ℚ :=
  match cs.splitOn '.' with
  | [ints] => (parseDigits ints).map (fun n => (n : ℚ))
  | [ints, frac] =>
    match parseDigits ints, parseDigits frac with
    | some n, some f => some ((n : ℚ) + (f : ℚ) / ((10 : ℚ) ^ frac.length))
    | _, _ => none
  | _ => none

/-- Numeric parsing of a string cell, as `pd.to_numeric` does for decimal
literals: optional sign, digits, optional fraction; anything else fails. -/
def parseNum (s : String) : Option ℚ :=
  match s.toList with
  | [] => none
  | c :: cs =>
    if c = '-' then (parseUnsigned cs).map (fun q => -q)
    else if c = '+' then parseUnsigned cs
    else parseUnsigned (c :: cs)

/-- One cell under `pd.to_numeric(_, errors="coerce")`: numbers stay, booleans
become 1/0, parseable strings become their number, anything else becomes
missing (`NaN`) rather than raising. -/
def toNumericCell : Value → Value
  | Value.num q => Value.num q
  | Value.boolean b => Value.num (if b then 1 else 0)
  | Value.missing => Value.missing
  | Value.str s =>
    match parseNum s with
    | some q => Value.num q
    | none => Value.missing

/-- The coercion step applied to one row: cells of the fixed statistic
columns pass through `toNumericCell`, every other cell is untouched. -/
def coerceRow (r : Row) : Row :=
  r.map (fun p => if p.1 ∈ NUMERIC_COLS then (p.1, toNumericCell p.2) else p)

/-- The `for c in NUMERIC_COLS: df[c] = pd.to_numeric(df[c], errors="coerce")`
step, frame-wise. -/
def coerceNumeric (df : DF) : DF :=
  df.map coerceRow

/-- Sequence task results in task order, propagating the first error (the
result `asyncio.gather` delivers when at most one task fails). -/
def exceptSeq {E α : Type} : List (Except E α) → Except E (List α)
  | [] => Except.ok []
  | Except.error e :: _ => Except.error e
  | Except.ok a :: rest =>
    match exceptSeq rest with
    | Except.error e => Except.error e
    | Except.ok as => Except.ok (a :: as)

/-- Traverse with an option-valued function, failing if any element fails. -/
def optTraverse {α β : Type} (f : α → Option β) : List α → Option (List β)
  | [] => some []
  | a :: l =>
    match f a, optTraverse f l with
    | some b, some bs => some (b :: bs)
    | _, _ => none

/-- Model of `asyncio.gather` over pure task results under an arbitrary completion
schedule: `sched` lists task indices in completion order; each completion
is tagged with its task index, and the final list is reassembled in task
order by looking each index up among the completions.  `none` means some
task index never completed (an invalid schedule). -/
def gatherSched {α : Type} (tasks : List α) (sched : List ℕ) : Option (List α) :=
  optTraverse
    (fun i => ((sched.filterMap (fun j => (tasks[j]?).map (fun d => (j, d)))).find?
      (fun p => decide (p.1 = i))).map Prod.snd)
    (List.range tasks.length)

/-- The synchronous tail of `load_dashboard_data_async`, applied to the
gathered per-region results in region order: sequence the results
(propagating a failure), drop empty frames, concatenate the rest with the
region order and each frame's row order preserved, and coerce the
statistic columns. -/
def load_dashboard_core (rs : List (Except HttpRequestError DF)) :
    Except HttpRequestError DF :=
  match exceptSeq rs with
  | Except.error e => Except.error e
  | Except.ok dfs =>
    Except.ok (coerceNumeric ((dfs.filter (fun d => !d.isEmpty)).flatten))

/-- Embedding of `load_dashboard_data_async`: fan out one region-loader task per region
of the fixed list, gather them under completion schedule `sched`, and
assemble the unified dataset.  `results` maps a region key to its region
loader outcome. -/
def load_dashboard_data_async (results : String → Except HttpRequestError DF)
    (sched : List ℕ) : Option (Except HttpRequestError DF) :=
  (gatherSched (regionOrder.map results) sched).map load_dashboard_core

/-- The per-region task the orchestrator spawns, from the per-region fetch
outcomes: `_load_one_region(config[region], start, end, session)`. -/
def regionResult (config : String → RegionCfg)
    (fetchCampaigns fetchReport : String → Except HttpRequestError DF)
    (region : String) : Except HttpRequestError DF :=
  load_one_region (config region).name (fetchCampaigns region) (fetchReport region)

/-! ## The spec-side region table (for the refinement claim C2) -/

/-- Modelled from the spec's words ("the rows of C merged with R where
campaign_id values coincide", the two join-artifact columns dropped, every
row stamped with the display name): the matching pairs are selected by
filtering the full cartesian product of C and R, and the cleanup and stamp
are applied per combined row. -/
def specRegionTable (name : String) (C R : DF) : DF :=
  ((C.flatMap (fun r1 => R.map (fun r2 => (r1, r2)))).filter
      (fun pr => decide (lookupCol pr.1 campaignIdKey = lookupCol pr.2 campaignIdKey))).map
    (fun pr =>
      setRowCol
        (((mergeRows pr.1 pr.2).filter (fun p => decide (p.1 ≠ "campaign_message_id"))).filter
          (fun p => decide (p.1 ≠ "archived")))
        "account" (Value.str name))

/-- The `campaign_id` values of a frame's rows (rows lacking the column
contribute nothing). -/
def rowIds (df : DF) : List Value :=
  df.filterMap (fun r => lookupCol r campaignIdKey)

/-- The cell of row `i`, column `c` of a frame, when both exist. -/
def cellAt (df : DF) (i : ℕ) (c : String) : Option Value :=
  df[i]?.bind (fun r => lookupCol r c)

/-! ## Concrete inputs used by witnesses and counterexamples -/

/-- A server answering every URL with one report page: no rows, no `next`
link. -/
def wReportServer : String → HttpResponse ReportPage :=
  fun _ => ⟨200, "", ⟨[], none⟩⟩

/-- A server answering every URL with one campaign page: no rows, no
`next` link. -/
def wCampaignServer : String → HttpResponse CampaignPage :=
  fun _ => ⟨200, "", ⟨[], none⟩⟩

/-- A concrete report payload. -/
def cexPayload : ReportPayload := reportPayload "2025-04-01" "2026-01-13" "MQ"

/-- The second-page URL served by `cexReportServer`. -/
def cexNextUrl : String := "https://a.klaviyo.com/api/next-page"

/-- A report server with a two-page chain: the endpoint URL links to
`cexNextUrl`, which is the last page.  Both pages are empty. -/
def cexReportServer : String → HttpResponse ReportPage :=
  fun u =>
    if u = reportUrl then ⟨200, "", ⟨[], some cexNextUrl⟩⟩
    else ⟨200, "", ⟨[], none⟩⟩

/-- A two-row frame whose statistic column `opens` holds the non-numeric
string `"abc"` in the first row and the numeric string `"2"` in the
second. -/
def cexOpensDF : DF :=
  [[("opens", Value.str "abc")], [("opens", Value.str "2")]]

/-- A concrete campaign frame (two campaigns, ids `A1` and `B2`). -/
def wCampaignsDF : DF :=
  [campaignRow ⟨"campaign", "A1", [("name", Value.str "Alpha"),
     ("status", Value.str "Sent"), ("archived", Value.boolean false)]⟩,
   campaignRow ⟨"campaign", "B2", [("name", Value.str "Beta")]⟩]

/-- A concrete report frame (one row, id `A1`, with a join-artifact
`campaign_message_id` column). -/
def wReportDF : DF :=
  [[("campaign_id", Value.str "A1"), ("campaign_message_id", Value.str "m1"),
    ("opens", Value.num 5)]]

/-- A concrete fetch error. -/
def wErr : HttpRequestError :=
  ⟨"GET", "https://a.klaviyo.com/api/campaigns", 500, "rate limited"⟩

/-- A concrete region configuration map. -/
def wConfig : String → RegionCfg := fun r => ⟨r, "key-" ++ r, "pixel-" ++ r⟩

/-- Campaign fetches in which region `hk` raises `wErr` and every other
region succeeds with one campaign row. -/
def wFetchCampaigns : String → Except HttpRequestError DF :=
  fun r =>
    if r = "hk" then Except.error wErr
    else Except.ok [[("campaign_id", Value.str "A1")]]

/-- Report fetches that always succeed with an empty frame. -/
def wFetchReport : String → Except HttpRequestError DF :=
  fun _ => Except.ok []

/-- Concrete per-region tables: only `sg` is non-empty. -/
def wTable : String → DF :=
  fun r =>
    if r = "sg" then [[("opens", Value.str "12"), ("name", Value.str "x")]]
    else []

/-- Region loader results that always succeed with `wTable`. -/
def wResults : String → Except HttpRequestError DF :=
  fun r => Except.ok (wTable r)

/-- A one-row frame mixing a non-numeric statistic string, a non-statistic
column and an already numeric statistic. -/
def wMixedDF : DF :=
  [[("opens", Value.str "abc"), ("name", Value.str "A"), ("clicks", Value.num 7)]]

/-! ## Row lookup lemmas -/

theorem lookupCol_nil (k : String) : lookupCol ([] : Row) k = none := rfl

theorem lookupCol_cons (p : String × Value) (r : Row) (k : String) :
    lookupCol (p :: r) k = if p.1 = k then some p.2 else lookupCol r k := by
  by_cases h : p.1 = k <;> simp [lookupCol, List.find?_cons, h]

theorem lookupCol_append_some (x y : Row) (k : String) (v : Value)
    (h : lookupCol x k = some v) : lookupCol (x ++ y) k = some v := by
  induction x with
  | nil => simp [lookupCol] at h
  | cons p x ih =>
    rw [List.cons_append, lookupCol_cons]
    rw [lookupCol_cons] at h
    by_cases hk : p.1 = k
    · rw [if_pos hk] at h ⊢; exact h
    · rw [if_neg hk] at h ⊢; exact ih h

theorem lookupCol_append_none (x y : Row) (k : String)
    (h : lookupCol x k = none) : lookupCol (x ++ y) k = lookupCol y k := by
  induction x with
  | nil => rfl
  | cons p x ih =>
    rw [lookupCol_cons] at h
    by_cases hk : p.1 = k
    · rw [if_pos hk] at h; cases h
    · rw [if_neg hk] at h
      rw [List.cons_append, lookupCol_cons, if_neg hk]
      exact ih h

theorem lookupCol_filter_ne (r : Row) (c k : String) (h : k ≠ c) :
    lookupCol (r.filter (fun p => decide (p.1 ≠ c))) k = lookupCol r k := by
  induction r with
  | nil => rfl
  | cons p r ih =>
    rw [List.filter_cons]
    by_cases hc : p.1 = c
    · have hpk : p.1 ≠ k := fun hk => h (hc ▸ hk).symm
      rw [if_neg (by simp [hc]), lookupCol_cons, if_neg hpk]
      exact ih
    · rw [if_pos (by simp [hc]), lookupCol_cons, lookupCol_cons]
      by_cases hpk : p.1 = k
      · rw [if_pos hpk, if_pos hpk]
      · rw [if_neg hpk, if_neg hpk]; exact ih

theorem lookupCol_filter_self (r : Row) (c : String) :
    lookupCol (r.filter (fun p => decide (p.1 ≠ c))) c = none := by
  induction r with
  | nil => rfl
  | cons p r ih =>
    rw [List.filter_cons]
    by_cases hc : p.1 = c
    · rw [if_neg (by simp [hc])]; exact ih
    · rw [if_pos (by simp [hc]), lookupCol_cons, if_neg hc]; exact ih

theorem lookupCol_setRowCol_ne (r : Row) (c : String) (v : Value) (k : String)
    (h : k ≠ c) : lookupCol (setRowCol r c v) k = lookupCol r k := by
  rw [setRowCol]
  cases hx : lookupCol (r.filter (fun p => decide (p.1 ≠ c))) k with
  | some w => rw [lookupCol_append_some _ _ _ _ hx, ← hx, lookupCol_filter_ne r c k h]
  | none =>
    rw [lookupCol_filter_ne r c k h] at hx
    rw [lookupCol_append_none _ _ _ (by rw [lookupCol_filter_ne r c k h]; exact hx)]
    rw [lookupCol_cons, if_neg (fun hck => h hck.symm), lookupCol_nil, hx]

theorem lookupCol_setRowCol_self (r : Row) (c : String) (v : Value) :
    lookupCol (setRowCol r c v) c = some v := by
  rw [setRowCol, lookupCol_append_none _ _ _ (lookupCol_filter_self r c),
    lookupCol_cons, if_pos rfl]

theorem lookupCol_mergeRows_id (r1 r2 : Row) :
    lookupCol (mergeRows r1 r2) campaignIdKey = lookupCol r1 campaignIdKey := by
  rw [mergeRows]
  cases hx : lookupCol r1 campaignIdKey with
  | some w => rw [lookupCol_append_some _ _ _ _ hx]
  | none => rw [lookupCol_append_none _ _ _ hx, lookupCol_filter_self]

theorem containsKey_lookup (r : Row) (k : String) (h : containsKey r k = true) :
    ∃ w, lookupCol r k = some w := by
  induction r with
  | nil => simp [containsKey] at h
  | cons p r ih =>
    by_cases hk : p.1 = k
    · exact ⟨p.2, by simp [lookupCol_cons, hk]⟩
    · have h' : containsKey r k = true := by
        simpa [containsKey, List.any_cons, hk] using h
      obtain ⟨w, hw⟩ := ih h'
      exact ⟨w, by simp [lookupCol_cons, hk, hw]⟩

/-! ## C6 — the fetcher -/

/-- C6: `_request_json` fails on every status `>= 400` response with an
`HttpRequestError` carrying the request method, the URL, the status code
and the response body text (issuing no retry: the function performs exactly
one request), and on every status `< 400` response returns the parsed JSON
body.  The formatted message of the raised error is exactly the source's
f-string. -/
theorem request_json_spec {α : Type} (method url : String) (resp : HttpResponse α) :
    (resp.status ≥ 400 →
      request_json method url resp =
        Except.error ⟨method, url, resp.status, resp.text⟩) ∧
    (resp.status < 400 → request_json method url resp = Except.ok resp.json) ∧
    HttpRequestError.message ⟨method, url, resp.status, resp.text⟩ =
      method ++ " " ++ url ++ " -> " ++ toString resp.status ++ "\n" ++ resp.text := by
  refine ⟨fun h => ?_, fun h => ?_, rfl⟩
  · simp [request_json, h]
  · simp [request_json, Nat.not_le.mpr h]

theorem request_json_spec_witness :
    request_json "GET" "https://a.klaviyo.com/api/campaigns"
        (⟨404, "not found", (0 : ℕ)⟩ : HttpResponse ℕ) =
      Except.error ⟨"GET", "https://a.klaviyo.com/api/campaigns", 404, "not found"⟩ ∧
    request_json "POST" reportUrl (⟨200, "ok", (7 : ℕ)⟩ : HttpResponse ℕ) =
      Except.ok 7 :=
  ⟨(request_json_spec "GET" "https://a.klaviyo.com/api/campaigns" _).1 (by norm_num),
   (request_json_spec "POST" reportUrl _).2.1 (by norm_num)⟩

/-! ## C8 — empty-input short-circuit -/

/-- C8: when either fetched frame of a region is empty, the region loader
returns an empty table without attempting the join, as a successful
(`Except.ok`) terminal result, not an error. -/
theorem region_empty_short_circuit (name : String) (d : DF) :
    load_one_region name (Except.ok []) (Except.ok d) = Except.ok [] ∧
    load_one_region name (Except.ok d) (Except.ok []) = Except.ok [] ∧
    regionTable name [] d = [] ∧ regionTable name d [] = [] := by
  refine ⟨?_, ?_, ?_, ?_⟩ <;> simp [load_one_region, regionTable]

/-! ## C10 — statistics overwrite groupings -/

theorem lookup_map_override (a b : Row) (k : String) (w : Value)
    (ha : containsKey a k = true) (hb : lookupCol b k = some w) :
    lookupCol (a.map (fun p =>
      match lookupCol b p.1 with
      | some v => (p.1, v)
      | none => p)) k = some w := by
  induction a with
  | nil => simp [containsKey] at ha
  | cons p a ih =>
    by_cases hk : p.1 = k
    · rw [List.map_cons]
      have : (match lookupCol b p.1 with
          | some v => (p.1, v)
          | none => p) = (p.1, w) := by rw [hk, hb]
      rw [this, lookupCol_cons, if_pos hk]
    · have ha' : containsKey a k = true := by
        simpa [containsKey, List.any_cons, hk] using ha
      rw [List.map_cons]
      have hkey : (match lookupCol b p.1 with
          | some v => (p.1, v)
          | none => p).1 = p.1 := by
        cases lookupCol b p.1 <;> rfl
      rw [lookupCol_cons, if_neg (fun hx => hk (hkey ▸ hx))]
      exact ih ha'

theorem dictUnion_lookup_right (a b : Row) (k : String) (w : Value)
    (ha : containsKey a k = true) (hb : lookupCol b k = some w) :
    lookupCol (dictUnion a b) k = some w := by
  rw [dictUnion]
  exact lookupCol_append_some _ _ _ _ (lookup_map_override a b k w ha hb)

/-- C10: when a report result's `groupings` and `statistics` mappings share
a key, the flattened row `{**r["groupings"], **r["statistics"]}` takes that
key's value from the statistics mapping. -/
theorem flattenResult_statistics_win (r : ReportEntry) (k : String)
    (hg : containsKey r.groupings k = true)
    (hs : containsKey r.statistics k = true) :
    lookupCol (flattenResult r) k = lookupCol r.statistics k := by
  obtain ⟨w, hw⟩ := containsKey_lookup r.statistics k hs
  rw [hw, flattenResult]
  exact dictUnion_lookup_right _ _ _ _ hg hw

theorem flattenResult_statistics_win_witness :
    lookupCol (flattenResult
        ⟨[("campaign_id", Value.str "A1"), ("opens", Value.str "g")],
         [("opens", Value.num 3)]⟩) "opens" =
      lookupCol [("opens", Value.num 3)] "opens" :=
  flattenResult_statistics_win
    ⟨[("campaign_id", Value.str "A1"), ("opens", Value.str "g")],
     [("opens", Value.num 3)]⟩ "opens" (by decide) (by decide)

/-! ## C2 — inner-join refinement -/

theorem mergeInner_eq_product (df1 df2 : DF) :
    mergeInner df1 df2 =
      ((df1.flatMap (fun r1 => df2.map (fun r2 => (r1, r2)))).filter
        (fun pr => decide (lookupCol pr.1 campaignIdKey = lookupCol pr.2 campaignIdKey))).map
        (fun pr => mergeRows pr.1 pr.2) := by
  induction df1 with
  | nil => rfl
  | cons r1 df1 ih =>
    simp only [mergeInner, List.flatMap_cons, List.filter_append, List.map_append] at ih ⊢
    congr 1
    rw [List.filter_map, List.map_map]
    have h1 : df2.filter
          ((fun pr : Row × Row =>
            decide (lookupCol pr.1 campaignIdKey = lookupCol pr.2 campaignIdKey)) ∘
            (fun r2 => (r1, r2))) =
        df2.filter (fun r2 =>
          decide (lookupCol r2 campaignIdKey = lookupCol r1 campaignIdKey)) :=
      List.filter_congr (fun r2 _ => by
        simp only [Function.comp]
        exact decide_eq_decide.mpr eq_comm)
    rw [h1]
    exact (List.map_congr_left (fun r2 _ => rfl)).symm

theorem regionTable_eq_spec (name : String) (C R : DF) (hC : C ≠ []) (hR : R ≠ []) :
    regionTable name C R = specRegionTable name C R := by
  rw [regionTable, if_neg (by simp [hC, hR]), mergeInner_eq_product]
  simp [specRegionTable, setCol, dropCol, List.map_map, Function.comp]

theorem mem_mergeInner {C R : DF} {row : Row} :
    row ∈ mergeInner C R ↔ ∃ r1 ∈ C, ∃ r2 ∈ R,
      lookupCol r2 campaignIdKey = lookupCol r1 campaignIdKey ∧
      row = mergeRows r1 r2 := by
  simp only [mergeInner, List.mem_flatMap, List.mem_map, List.mem_filter,
    decide_eq_true_eq]
  constructor
  · rintro ⟨r1, h1, r2, ⟨h2, hm⟩, heq⟩
    exact ⟨r1, h1, r2, h2, hm, heq.symm⟩
  · rintro ⟨r1, h1, r2, h2, hm, heq⟩
    exact ⟨r1, h1, r2, ⟨h2, hm⟩, heq.symm⟩

theorem lookupCol_processed_id (r : Row) (name : String) :
    lookupCol (setRowCol
      ((r.filter (fun p => decide (p.1 ≠ "campaign_message_id"))).filter
        (fun p => decide (p.1 ≠ "archived"))) "account" (Value.str name))
      campaignIdKey = lookupCol r campaignIdKey := by
  rw [lookupCol_setRowCol_ne _ _ _ _ (by decide),
    lookupCol_filter_ne _ _ _ (by decide), lookupCol_filter_ne _ _ _ (by decide)]

/-- Every row of a region table comes from one campaign row and one
matching report row; its `campaign_id` is the campaign row's, and it is
stamped with the account name. -/
theorem regionTable_row_structure (name : String) (C R : DF) {row : Row}
    (hrow : row ∈ regionTable name C R) :
    ∃ r1 ∈ C, ∃ r2 ∈ R,
      lookupCol r2 campaignIdKey = lookupCol r1 campaignIdKey ∧
      lookupCol row campaignIdKey = lookupCol r1 campaignIdKey ∧
      lookupCol row "account" = some (Value.str name) := by
  rw [regionTable] at hrow
  split at hrow
  · simp at hrow
  · simp only [setCol, dropCol, List.map_map, List.mem_map, Function.comp] at hrow
    obtain ⟨r', hr', heq⟩ := hrow
    rw [mem_mergeInner] at hr'
    obtain ⟨r1, h1, r2, h2, hm, hmr⟩ := hr'
    refine ⟨r1, h1, r2, h2, hm, ?_, ?_⟩
    · rw [← heq, lookupCol_processed_id, hmr, lookupCol_mergeRows_id]
    · rw [← heq, lookupCol_setRowCol_self]

/-- C2: for non-empty campaign records `C` and report records `R`, the
region loader's successful result is exactly the spec-side table: the
inner join of `C` and `R` on `campaign_id` (a `campaign_id` present in
only one of the two contributes no row), with the two join-artifact
columns removed and an `account` column equal to the region's display name
stamped onto every row. -/
theorem load_one_region_inner_join (name : String) (C R : DF)
    (hC : C ≠ []) (hR : R ≠ []) :
    load_one_region name (Except.ok C) (Except.ok R) =
      Except.ok (specRegionTable name C R) ∧
    (∀ v : Value,
      ((∀ r1 ∈ C, lookupCol r1 campaignIdKey ≠ some v) ∨
       (∀ r2 ∈ R, lookupCol r2 campaignIdKey ≠ some v)) →
      ∀ row ∈ regionTable name C R, lookupCol row campaignIdKey ≠ some v) ∧
    (∀ row ∈ regionTable name C R, lookupCol row "account" = some (Value.str name)) := by
  refine ⟨?_, ?_, ?_⟩
  · simp only [load_one_region]
    rw [regionTable_eq_spec name C R hC hR]
  · intro v hv row hrow
    obtain ⟨r1, h1, r2, h2, hm, hid, _⟩ := regionTable_row_structure name C R hrow
    rcases hv with hv | hv
    · rw [hid]; exact hv r1 h1
    · rw [hid, ← hm]; exact hv r2 h2
  · intro row hrow
    obtain ⟨r1, _, r2, _, _, _, hacc⟩ := regionTable_row_structure name C R hrow
    exact hacc

theorem load_one_region_inner_join_witness :
    load_one_region "SG" (Except.ok wCampaignsDF) (Except.ok wReportDF) =
      Except.ok (specRegionTable "SG" wCampaignsDF wReportDF) :=
  (load_one_region_inner_join "SG" wCampaignsDF wReportDF
    (by decide) (by decide)).1

/-! ## C9 — one row per common campaign_id -/

theorem rowIds_cons_of_some {r : Row} {C : DF} {v1 : Value}
    (h : lookupCol r campaignIdKey = some v1) :
    rowIds (r :: C) = v1 :: rowIds C := by
  simp [rowIds, List.filterMap_cons, h]

theorem mem_rowIds {df : DF} {v : Value} :
    v ∈ rowIds df ↔ ∃ r ∈ df, lookupCol r campaignIdKey = some v := by
  simp [rowIds, List.mem_filterMap]

theorem filter_match_nil (R : DF) (w : Value) (h : w ∉ rowIds R) :
    R.filter (fun r2 => decide (lookupCol r2 campaignIdKey = some w)) = [] := by
  rw [List.filter_eq_nil_iff]
  intro r hr
  simp only [decide_eq_true_eq]
  exact fun hlook => h (mem_rowIds.mpr ⟨r, hr, hlook⟩)

theorem filter_match_length (R : DF) (w : Value)
    (hRs : ∀ r ∈ R, (lookupCol r campaignIdKey).isSome)
    (hRn : (rowIds R).Nodup) :
    (R.filter (fun r2 => decide (lookupCol r2 campaignIdKey = some w))).length =
      if w ∈ rowIds R then 1 else 0 := by
  induction R with
  | nil => simp [rowIds]
  | cons r R ih =>
    obtain ⟨u, hu⟩ := Option.isSome_iff_exists.mp (hRs r (by simp))
    have hRs' : ∀ x ∈ R, (lookupCol x campaignIdKey).isSome :=
      fun x hx => hRs x (List.mem_cons_of_mem _ hx)
    rw [rowIds_cons_of_some hu] at hRn
    have hnotin := (List.nodup_cons.mp hRn).1
    have hRn' := (List.nodup_cons.mp hRn).2
    rw [List.filter_cons, rowIds_cons_of_some hu]
    by_cases hw : u = w
    · subst hw
      rw [if_pos (by simp [hu]), List.length_cons, filter_match_nil R u hnotin]
      simp
    · rw [if_neg (by simp [hu, hw]), ih hRs' hRn']
      have hmem : w ∈ u :: rowIds R ↔ w ∈ rowIds R :=
        ⟨fun h => (List.mem_cons.mp h).resolve_left (fun h' => hw h'.symm),
         fun h => List.mem_cons_of_mem _ h⟩
      rw [if_congr hmem rfl rfl]

theorem rowIds_map_mergeRows (r1 : Row) (L : DF) (v1 : Value)
    (h : lookupCol r1 campaignIdKey = some v1) :
    rowIds (L.map (fun r2 => mergeRows r1 r2)) = List.replicate L.length v1 := by
  induction L with
  | nil => rfl
  | cons x L ih =>
    rw [List.map_cons,
      rowIds_cons_of_some (by rw [lookupCol_mergeRows_id]; exact h), ih,
      List.length_cons, List.replicate_succ]

theorem rowIds_processed (M : DF) (name : String) :
    rowIds (setCol (dropCol (dropCol M "campaign_message_id") "archived")
      "account" (Value.str name)) = rowIds M := by
  simp only [rowIds, setCol, dropCol, List.filterMap_map]
  exact List.filterMap_congr (fun r _ => by
    simp only [Function.comp]
    exact lookupCol_processed_id r name)

theorem countP_rowIds_mergeInner (C R : DF)
    (hCs : ∀ r ∈ C, (lookupCol r campaignIdKey).isSome)
    (hRs : ∀ r ∈ R, (lookupCol r campaignIdKey).isSome)
    (hCn : (rowIds C).Nodup) (hRn : (rowIds R).Nodup) (v : Value) :
    (rowIds (mergeInner C R)).countP (fun x => decide (x = v)) =
      if v ∈ rowIds C ∧ v ∈ rowIds R then 1 else 0 := by
  induction C with
  | nil => simp [mergeInner, rowIds]
  | cons r1 C ih =>
    obtain ⟨v1, hv1⟩ := Option.isSome_iff_exists.mp (hCs r1 (by simp))
    have hCs' : ∀ x ∈ C, (lookupCol x campaignIdKey).isSome :=
      fun x hx => hCs x (List.mem_cons_of_mem _ hx)
    rw [rowIds_cons_of_some hv1] at hCn
    have hnotin := (List.nodup_cons.mp hCn).1
    have hCn' := (List.nodup_cons.mp hCn).2
    simp only [mergeInner, List.flatMap_cons] at ih ⊢
    rw [rowIds, List.filterMap_append, List.countP_append]
    have hpred : (R.filter (fun r2 =>
          decide (lookupCol r2 campaignIdKey = lookupCol r1 campaignIdKey))) =
        (R.filter (fun r2 => decide (lookupCol r2 campaignIdKey = some v1))) :=
      List.filter_congr (fun r2 _ => by rw [hv1])
    have hblock : (List.filterMap (fun r => lookupCol r campaignIdKey)
          ((R.filter (fun r2 =>
            decide (lookupCol r2 campaignIdKey = lookupCol r1 campaignIdKey))).map
            (fun r2 => mergeRows r1 r2))).countP (fun x => decide (x = v)) =
        if v1 = v then (if v1 ∈ rowIds R then 1 else 0) else 0 := by
      rw [show List.filterMap (fun r => lookupCol r campaignIdKey)
            ((R.filter (fun r2 =>
              decide (lookupCol r2 campaignIdKey = lookupCol r1 campaignIdKey))).map
              (fun r2 => mergeRows r1 r2)) =
          rowIds ((R.filter (fun r2 =>
            decide (lookupCol r2 campaignIdKey = lookupCol r1 campaignIdKey))).map
            (fun r2 => mergeRows r1 r2)) from rfl]
      rw [rowIds_map_mergeRows r1 _ v1 hv1, List.countP_replicate, hpred,
        filter_match_length R v1 hRs hRn]
      by_cases hv : v1 = v <;> simp [hv]
    rw [hblock]
    have htail : (List.filterMap (fun r => lookupCol r campaignIdKey)
          (C.flatMap (fun r1 =>
            (R.filter (fun r2 =>
              decide (lookupCol r2 campaignIdKey = lookupCol r1 campaignIdKey))).map
              (fun r2 => mergeRows r1 r2)))).countP (fun x => decide (x = v)) =
        if v ∈ rowIds C ∧ v ∈ rowIds R then 1 else 0 := ih hCs' hCn'
    rw [htail, rowIds_cons_of_some hv1]
    by_cases hv : v1 = v
    · subst hv
      simp [hnotin]
    · have hmem : v ∈ v1 :: rowIds C ↔ v ∈ rowIds C :=
        ⟨fun h => (List.mem_cons.mp h).resolve_left (fun h' => hv h'.symm),
         fun h => List.mem_cons_of_mem _ h⟩
      simp [hv, hmem]

/-- C9: under the data-model invariants that every campaign record and
every report record carries a `campaign_id` and that ids are unique within
each record set, the region table is either empty or has exactly one row
per `campaign_id` value appearing in both record sets: for each value the
number of result rows carrying it is 1 when it occurs in both `C` and `R`
and 0 otherwise, and every result row carries a `campaign_id`. -/
theorem regionTable_unique_ids (name : String) (C R : DF)
    (hCs : ∀ r ∈ C, (lookupCol r campaignIdKey).isSome)
    (hRs : ∀ r ∈ R, (lookupCol r campaignIdKey).isSome)
    (hCn : (rowIds C).Nodup) (hRn : (rowIds R).Nodup) :
    (∀ v : Value, (rowIds (regionTable name C R)).countP (fun x => decide (x = v)) =
      if v ∈ rowIds C ∧ v ∈ rowIds R then 1 else 0) ∧
    (∀ row ∈ regionTable name C R, (lookupCol row campaignIdKey).isSome) := by
  constructor
  · intro v
    by_cases hC : C = []
    · subst hC; simp [regionTable, rowIds]
    · by_cases hR : R = []
      · subst hR
        simp [regionTable, rowIds, mem_rowIds]
      · rw [regionTable, if_neg (by simp [hC, hR]), rowIds_processed]
        exact countP_rowIds_mergeInner C R hCs hRs hCn hRn v
  · intro row hrow
    obtain ⟨r1, h1, _, _, _, hid, _⟩ := regionTable_row_structure name C R hrow
    rw [hid]
    exact hCs r1 h1

theorem regionTable_unique_ids_witness :
    (rowIds (regionTable "SG" wCampaignsDF wReportDF)).countP
        (fun x => decide (x = Value.str "A1")) = 1 ∧
    (rowIds (regionTable "SG" wCampaignsDF wReportDF)).countP
        (fun x => decide (x = Value.str "B2")) = 0 := by
  have h := (regionTable_unique_ids "SG" wCampaignsDF wReportDF
    (by decide) (by decide) (by decide) (by decide)).1
  exact ⟨(h (Value.str "A1")).trans (by decide),
    (h (Value.str "B2")).trans (by decide)⟩

/-! ## C7 — numeric coercion -/

theorem lookupCol_coerceRow (r : Row) (c : String) :
    lookupCol (coerceRow r) c =
      (lookupCol r c).map
        (fun v => if c ∈ NUMERIC_COLS then toNumericCell v else v) := by
  induction r with
  | nil => rfl
  | cons p r ih =>
    by_cases h : p.1 = c
    · by_cases hm : p.1 ∈ NUMERIC_COLS <;>
        simp [coerceRow, lookupCol_cons, h, hm] <;> rw [← h] <;> simp [hm]
    · by_cases hm : p.1 ∈ NUMERIC_COLS <;>
        simpa [coerceRow, lookupCol_cons, h, hm] using ih

theorem cellAt_coerceNumeric (df : DF) (i : ℕ) (c : String) :
    cellAt (coerceNumeric df) i c =
      (cellAt df i c).map
        (fun v => if c ∈ NUMERIC_COLS then toNumericCell v else v) := by
  unfold cellAt coerceNumeric
  rw [List.getElem?_map]
  cases df[i]? <;> simp [lookupCol_coerceRow]

/-- C7 counterexample: in the frame `cexOpensDF` the statistic column
`opens` holds the non-numeric string `"abc"` in row 0 and the numeric
string `"2"` in row 1.  Coercion turns row 0's cell into `missing` (as the
claim says), but it does not leave the other row unchanged: row 1's cell
changes from the string `"2"` to the number `2`. -/
theorem coerce_alters_sibling_cell :
    coerceNumeric cexOpensDF = [[("opens", Value.missing)], [("opens", Value.num 2)]] ∧
    cellAt cexOpensDF 1 "opens" = some (Value.str "2") ∧
    cellAt (coerceNumeric cexOpensDF) 1 "opens" = some (Value.num 2) ∧
    Value.num 2 ≠ Value.str "2" := by
  exact ⟨by decide, by decide, by decide, by decide⟩

/-- C7 amended: coercion never raises (it is a total per-cell map); a
non-numeric cell of a fixed statistic column becomes `missing`; cells of
columns outside the fixed list are unchanged; and within the fixed columns,
numeric cells and missing cells are unchanged while numeric-string cells
are replaced by their parsed numeric value. -/
theorem coerceNumeric_cellwise (df : DF) (i : ℕ) (c : String) :
    (c ∉ NUMERIC_COLS → cellAt (coerceNumeric df) i c = cellAt df i c) ∧
    (∀ s, c ∈ NUMERIC_COLS → cellAt df i c = some (Value.str s) →
      parseNum s = none → cellAt (coerceNumeric df) i c = some Value.missing) ∧
    (∀ s q, c ∈ NUMERIC_COLS → cellAt df i c = some (Value.str s) →
      parseNum s = some q → cellAt (coerceNumeric df) i c = some (Value.num q)) ∧
    (∀ q, cellAt df i c = some (Value.num q) →
      cellAt (coerceNumeric df) i c = some (Value.num q)) ∧
    (cellAt df i c = some Value.missing →
      cellAt (coerceNumeric df) i c = some Value.missing) := by
  have hmain := cellAt_coerceNumeric df i c
  refine ⟨fun h => ?_, fun s hc hv hp => ?_, fun s q hc hv hp => ?_,
    fun q hv => ?_, fun hv => ?_⟩
  · rw [hmain]; cases cellAt df i c <;> simp [h]
  · rw [hmain, hv]; simp [hc, toNumericCell, hp]
  · rw [hmain, hv]; simp [hc, toNumericCell, hp]
  · rw [hmain, hv]; by_cases hc : c ∈ NUMERIC_COLS <;> simp [hc, toNumericCell]
  · rw [hmain, hv]; by_cases hc : c ∈ NUMERIC_COLS <;> simp [hc, toNumericCell]

/-! ## C1 / C5 — pagination -/

theorem request_json_ok {α : Type} (method url : String) (resp : HttpResponse α)
    (h : resp.status < 400) : request_json method url resp = Except.ok resp.json := by
  rw [request_json, if_neg (by omega)]

theorem reportLoop_of_chain (server : String → HttpResponse ReportPage)
    (payload : ReportPayload) {chain : List (String × ReportPage)}
    (hc : ReportChain server chain) :
    ∀ fuel, chain.length ≤ fuel → ∀ u p rest, chain = (u, p) :: rest →
    ∀ rows reqs,
      reportLoop server payload fuel (some u) rows reqs =
        some (Except.ok
          (rows ++ chain.flatMap (fun c => c.2.results.map flattenResult),
           reqs ++ chain.map (fun c => (⟨"POST", c.1, none, some payload⟩ : RequestRec)))) := by
  induction hc with
  | last u0 p0 hst hjson hnext =>
    intro fuel hf u p rest heq rows reqs
    injection heq with h1 h2
    injection h1 with hu hp
    subst hu; subst hp; subst h2
    cases fuel with
    | zero => simp at hf
    | succ f =>
      have hrj : request_json "POST" u0 (server u0) = Except.ok p0 := by
        rw [request_json_ok _ _ _ hst, hjson]
      simp only [reportLoop, hrj, hnext]
      simp
  | step u0 p0 u2 p2 rest' hst hjson hnext htail ih =>
    intro fuel hf u p rest heq rows reqs
    injection heq with h1 h2
    injection h1 with hu hp
    subst hu; subst hp; subst h2
    cases fuel with
    | zero => simp at hf
    | succ f =>
      have hrj : request_json "POST" u0 (server u0) = Except.ok p0 := by
        rw [request_json_ok _ _ _ hst, hjson]
      simp only [reportLoop, hrj, hnext]
      exact (ih f (by simp at hf ⊢; omega) u2 p2 rest' rfl _ _).trans
        (by simp [List.append_assoc])

theorem campaignLoop_of_chain (server : String → HttpResponse CampaignPage)
    {chain : List (String × CampaignPage)} (hc : CampaignChain server chain) :
    ∀ fuel, chain.length ≤ fuel → ∀ u p rest, chain = (u, p) :: rest →
    ∀ ps rows reqs,
      campaignLoop server fuel (some u) ps rows reqs =
        some (Except.ok
          (rows ++ chain.flatMap (fun c => c.2.data.map campaignRow),
           reqs ++ ((⟨"GET", u, ps, none⟩ : RequestRec) ::
             rest.map (fun c => (⟨"GET", c.1, none, none⟩ : RequestRec))))) := by
  induction hc with
  | last u0 p0 hst hjson hnext =>
    intro fuel hf u p rest heq ps rows reqs
    injection heq with h1 h2
    injection h1 with hu hp
    subst hu; subst hp; subst h2
    cases fuel with
    | zero => simp at hf
    | succ f =>
      have hrj : request_json "GET" u0 (server u0) = Except.ok p0 := by
        rw [request_json_ok _ _ _ hst, hjson]
      simp only [campaignLoop, hrj, hnext]
      simp
  | step u0 p0 u2 p2 rest' hst hjson hnext htail ih =>
    intro fuel hf u p rest heq ps rows reqs
    injection heq with h1 h2
    injection h1 with hu hp
    subst hu; subst hp; subst h2
    cases fuel with
    | zero => simp at hf
    | succ f =>
      have hrj : request_json "GET" u0 (server u0) = Except.ok p0 := by
        rw [request_json_ok _ _ _ hst, hjson]
      simp only [campaignLoop, hrj, hnext]
      exact (ih f (by simp at hf ⊢; omega) u2 p2 rest' rfl none _ _).trans
        (by simp [List.append_assoc])

/-- C1: for every finite chain of pages in which each page carries a
`links.next` URL except the last, both paginated fetches (report and
listing) terminate within one request per page and return exactly the
concatenation of all pages' rows in page order; in particular a single
first page with no `next` link and no rows yields the empty sequence as a
successful result (see the witness). -/
theorem pagination_concat (server1 : String → HttpResponse ReportPage)
    (payload : ReportPayload) (server2 : String → HttpResponse CampaignPage)
    (u1 : String) (p1 : ReportPage) (rest1 : List (String × ReportPage))
    (u2 : String) (p2 : CampaignPage) (rest2 : List (String × CampaignPage))
    (fuel1 fuel2 : ℕ) (ps : Option QueryParams)
    (h1 : ReportChain server1 ((u1, p1) :: rest1))
    (hf1 : ((u1, p1) :: rest1).length ≤ fuel1)
    (h2 : CampaignChain server2 ((u2, p2) :: rest2))
    (hf2 : ((u2, p2) :: rest2).length ≤ fuel2) :
    (reportLoop server1 payload fuel1 (some u1) [] []).map (Except.map Prod.fst) =
      some (Except.ok (((u1, p1) :: rest1).flatMap
        (fun c => c.2.results.map flattenResult))) ∧
    (campaignLoop server2 fuel2 (some u2) ps [] []).map (Except.map Prod.fst) =
      some (Except.ok (((u2, p2) :: rest2).flatMap
        (fun c => c.2.data.map campaignRow))) := by
  rw [reportLoop_of_chain server1 payload h1 fuel1 hf1 u1 p1 rest1 rfl [] [],
    campaignLoop_of_chain server2 h2 fuel2 hf2 u2 p2 rest2 rfl ps [] []]
  simp [Except.map]

theorem pagination_concat_witness :
    (reportLoop wReportServer cexPayload 1 (some reportUrl) [] []).map
        (Except.map Prod.fst) = some (Except.ok []) ∧
    (campaignLoop wCampaignServer 1 (some campaignsUrl)
        (some (campaignParams "2025-04-01")) [] []).map (Except.map Prod.fst) =
      some (Except.ok []) := by
  have h := pagination_concat wReportServer cexPayload wCampaignServer
    reportUrl ⟨[], none⟩ [] campaignsUrl ⟨[], none⟩ [] 1 1
    (some (campaignParams "2025-04-01"))
    (ReportChain.last reportUrl ⟨[], none⟩ (by norm_num [wReportServer]) rfl rfl)
    (by simp)
    (CampaignChain.last campaignsUrl ⟨[], none⟩ (by norm_num [wCampaignServer]) rfl rfl)
    (by simp)
  simpa using h

/-- C5 counterexample: a concrete two-page report fetch.  The claim says a
subsequent request re-sends no part of the original request body, but the
second request of this trace carries the original POST payload verbatim
(`json_body=payload` is passed on every loop iteration in
`get_klaviyo_report_async`). -/
theorem report_resends_body :
    get_klaviyo_report_async "MQ" "2025-04-01" "2026-01-13" cexReportServer 2 =
      some (Except.ok ([],
        [⟨"POST", reportUrl, none, some cexPayload⟩,
         ⟨"POST", cexNextUrl, none, some cexPayload⟩])) ∧
    (⟨"POST", cexNextUrl, none, some cexPayload⟩ : RequestRec).body =
      some (reportPayload "2025-04-01" "2026-01-13" "MQ") ∧
    (⟨"POST", cexNextUrl, none, some cexPayload⟩ : RequestRec).body ≠ none := by
  exact ⟨by decide, by decide, by decide⟩

/-- C5 amended: only the first request of each paginated call sends the
caller-supplied URL and query parameters; every subsequent request uses
the server-returned `next` URL verbatim and re-sends none of the original
query parameters — but the report pagination re-sends the original request
body on every request (first and subsequent alike), while the listing
pagination never sends a body. -/
theorem pagination_requests (server1 : String → HttpResponse ReportPage)
    (payload : ReportPayload) (server2 : String → HttpResponse CampaignPage)
    (u1 : String) (p1 : ReportPage) (rest1 : List (String × ReportPage))
    (u2 : String) (p2 : CampaignPage) (rest2 : List (String × CampaignPage))
    (fuel1 fuel2 : ℕ) (ps0 : QueryParams)
    (h1 : ReportChain server1 ((u1, p1) :: rest1))
    (hf1 : ((u1, p1) :: rest1).length ≤ fuel1)
    (h2 : CampaignChain server2 ((u2, p2) :: rest2))
    (hf2 : ((u2, p2) :: rest2).length ≤ fuel2) :
    (reportLoop server1 payload fuel1 (some u1) [] []).map (Except.map Prod.snd) =
      some (Except.ok (((u1, p1) :: rest1).map
        (fun c => (⟨"POST", c.1, none, some payload⟩ : RequestRec)))) ∧
    (campaignLoop server2 fuel2 (some u2) (some ps0) [] []).map (Except.map Prod.snd) =
      some (Except.ok ((⟨"GET", u2, some ps0, none⟩ : RequestRec) ::
        rest2.map (fun c => (⟨"GET", c.1, none, none⟩ : RequestRec)))) := by
  rw [reportLoop_of_chain server1 payload h1 fuel1 hf1 u1 p1 rest1 rfl [] [],
    campaignLoop_of_chain server2 h2 fuel2 hf2 u2 p2 rest2 rfl (some ps0) [] []]
  simp [Except.map]

theorem pagination_requests_witness :
    (reportLoop cexReportServer cexPayload 2 (some reportUrl) [] []).map
        (Except.map Prod.snd) =
      some (Except.ok
        [⟨"POST", reportUrl, none, some cexPayload⟩,
         ⟨"POST", cexNextUrl, none, some cexPayload⟩]) ∧
    (campaignLoop wCampaignServer 1 (some campaignsUrl)
        (some (campaignParams "2025-04-01")) [] []).map (Except.map Prod.snd) =
      some (Except.ok [⟨"GET", campaignsUrl, some (campaignParams "2025-04-01"), none⟩]) := by
  have h := pagination_requests cexReportServer cexPayload wCampaignServer
    reportUrl ⟨[], some cexNextUrl⟩ [(cexNextUrl, ⟨[], none⟩)]
    campaignsUrl ⟨[], none⟩ [] 2 1 (campaignParams "2025-04-01")
    (ReportChain.step reportUrl ⟨[], some cexNextUrl⟩ cexNextUrl ⟨[], none⟩ []
      (by decide) (by decide) rfl
      (ReportChain.last cexNextUrl ⟨[], none⟩ (by decide) (by decide) rfl))
    (by simp)
    (CampaignChain.last campaignsUrl ⟨[], none⟩ (by norm_num [wCampaignServer]) rfl rfl)
    (by simp)
  simpa using h

/-! ## C3 / C4 — the gather model and the orchestrator -/

theorem find_pair {α : Type} (l : List (ℕ × α)) (i : ℕ) (x : α)
    (hnd : (l.map Prod.fst).Nodup) (hm : (i, x) ∈ l) :
    l.find? (fun p => decide (p.1 = i)) = some (i, x) := by
  induction l with
  | nil => cases hm
  | cons q l ih =>
    rw [List.map_cons, List.nodup_cons] at hnd
    by_cases hq : q.1 = i
    · rw [List.find?_cons_of_pos _ (by simp [hq])]
      rcases List.mem_cons.mp hm with h | h
      · exact congrArg some h.symm
      · exact absurd (List.mem_map.mpr ⟨(i, x), h, rfl⟩) (hq ▸ hnd.1)
    · rw [List.find?_cons_of_neg _ (by simp [hq])]
      refine ih hnd.2 ?_
      rcases List.mem_cons.mp hm with h | h
      · exact absurd (congrArg Prod.fst h.symm) hq
      · exact h

theorem comps_keys {α : Type} (tasks : List α) (sched : List ℕ)
    (hlt : ∀ i ∈ sched, i < tasks.length) :
    (sched.filterMap (fun j => (tasks[j]?).map (fun d => (j, d)))).map Prod.fst =
      sched := by
  induction sched with
  | nil => rfl
  | cons i s ih =>
    have hi : i < tasks.length := hlt i (List.mem_cons_self i s)
    simp only [List.filterMap_cons, List.getElem?_eq_getElem hi, Option.map_some',
      List.map_cons]
    rw [ih (fun j hj => hlt j (List.mem_cons_of_mem _ hj))]

theorem comps_mem {α : Type} (tasks : List α) (sched : List ℕ) (i : ℕ)
    (hi : i ∈ sched) (y : α) (hy : tasks[i]? = some y) :
    (i, y) ∈ sched.filterMap (fun j => (tasks[j]?).map (fun d => (j, d))) :=
  List.mem_filterMap.mpr ⟨i, hi, by rw [hy]; rfl⟩

theorem optTraverse_eq_map {α β : Type} (f : α → Option β) (g : α → β) (l : List α)
    (h : ∀ a ∈ l, f a = some (g a)) : optTraverse f l = some (l.map g) := by
  induction l with
  | nil => rfl
  | cons a l ih =>
    simp only [optTraverse, h a (List.mem_cons_self a l),
      ih (fun b hb => h b (List.mem_cons_of_mem _ hb)), List.map_cons]

theorem range_map_getD {α : Type} (l : List α) (d : α) :
    (List.range l.length).map (fun i => l.getD i d) = l := by
  induction l with
  | nil => rfl
  | cons a l ih =>
    rw [List.length_cons, List.range_succ_eq_map, List.map_cons, List.map_map]
    congr 1

/-- Reassembling tagged task completions in task order is independent of
the completion schedule: any schedule that completes each task exactly
once yields the task results in task order. -/
theorem gatherSched_perm {α : Type} (tasks : List α) (sched : List ℕ)
    (h : sched.Perm (List.range tasks.length)) :
    gatherSched tasks sched = some tasks := by
  cases tasks with
  | nil => rfl
  | cons a tl =>
    have hlt : ∀ i ∈ sched, i < (a :: tl).length :=
      fun i hi => List.mem_range.mp (h.subset hi)
    have hnd : sched.Nodup := (h.nodup_iff).mpr (List.nodup_range _)
    have hknd : ((sched.filterMap
        (fun j => ((a :: tl)[j]?).map (fun d => (j, d)))).map Prod.fst).Nodup := by
      rw [comps_keys (a :: tl) sched hlt]; exact hnd
    have happ : ∀ i ∈ List.range (a :: tl).length,
        ((sched.filterMap (fun j => ((a :: tl)[j]?).map (fun d => (j, d)))).find?
          (fun p => decide (p.1 = i))).map Prod.snd =
        some ((a :: tl).getD i a) := by
      intro i hi
      have hilen : i < (a :: tl).length := List.mem_range.mp hi
      have hy : (a :: tl)[i]? = some ((a :: tl).getD i a) := by
        rw [List.getD_eq_getElem?_getD, List.getElem?_eq_getElem hilen]; rfl
      have hmem := comps_mem (a :: tl) sched i
        (h.symm.subset (List.mem_range.mpr hilen)) _ hy
      rw [find_pair _ i _ hknd hmem]
      rfl
    rw [gatherSched]
    exact (optTraverse_eq_map _ _ _ happ).trans
      (congrArg some (range_map_getD (a :: tl) a))

theorem exceptSeq_map_ok {E α : Type} (l : List α) :
    exceptSeq (l.map (Except.ok : α → Except E α)) = Except.ok l := by
  induction l with
  | nil => rfl
  | cons a l ih => simp [exceptSeq, ih]

/-- C3: with the five fixed regions, if region `hk`'s campaigns fetch
raises an `HttpRequestError` and every other region's fetches succeed,
the orchestrator's overall call fails with exactly that error — under every
completion schedule — rather than returning partial data; and the region
loader recovers no fetch failure locally: an error in either fetch is
propagated unchanged. -/
theorem orchestration_propagates_error
    (config : String → RegionCfg)
    (fetchC fetchR : String → Except HttpRequestError DF)
    (sched : List ℕ) (e : HttpRequestError)
    (hperm : sched.Perm (List.range regionOrder.length))
    (hhk : fetchC "hk" = Except.error e)
    (hok : ∀ r ∈ regionOrder, r ≠ "hk" →
      (∃ d, fetchC r = Except.ok d) ∧ (∃ d, fetchR r = Except.ok d)) :
    load_dashboard_data_async (regionResult config fetchC fetchR) sched =
      some (Except.error e) ∧
    (∀ (name : String) (e1 : HttpRequestError) (x : Except HttpRequestError DF),
      load_one_region name (Except.error e1) x = Except.error e1) ∧
    (∀ (name : String) (d : DF) (e2 : HttpRequestError),
      load_one_region name (Except.ok d) (Except.error e2) = Except.error e2) := by
  refine ⟨?_, fun name e1 x => rfl, fun name d e2 => rfl⟩
  have hg := gatherSched_perm
    (regionOrder.map (regionResult config fetchC fetchR)) sched
    (by rw [List.length_map]; exact hperm)
  rw [load_dashboard_data_async, hg, Option.map_some']
  obtain ⟨⟨dc1, hc1⟩, ⟨dr1, hr1⟩⟩ := hok "sg" (by simp [regionOrder]) (by decide)
  obtain ⟨⟨dc2, hc2⟩, ⟨dr2, hr2⟩⟩ := hok "intl" (by simp [regionOrder]) (by decide)
  obtain ⟨⟨dc3, hc3⟩, ⟨dr3, hr3⟩⟩ := hok "au" (by simp [regionOrder]) (by decide)
  obtain ⟨⟨dc5, hc5⟩, ⟨dr5, hr5⟩⟩ := hok "tw" (by simp [regionOrder]) (by decide)
  simp [regionOrder, regionResult, load_one_region, load_dashboard_core,
    exceptSeq, hc1, hr1, hc2, hr2, hc3, hr3, hc5, hr5, hhk]

theorem orchestration_propagates_error_witness :
    load_dashboard_data_async (regionResult wConfig wFetchCampaigns wFetchReport)
      [2, 0, 4, 1, 3] = some (Except.error wErr) :=
  (orchestration_propagates_error wConfig wFetchCampaigns wFetchReport
    [2, 0, 4, 1, 3] wErr (by decide) (by decide)
    (fun r _ hne =>
      ⟨⟨[[("campaign_id", Value.str "A1")]], by simp [wFetchCampaigns, hne]⟩,
       ⟨[], rfl⟩⟩)).1

/-- C4: when every region loader succeeds, the orchestrator's unified
dataset — under every completion schedule, i.e. regardless of which
region's network calls finish first — is the non-empty region tables
concatenated in the fixed region-list order (sg, intl, au, hk, tw) with
each table's row order preserved, followed by the numeric coercion of the
statistic columns; and if every region's table is empty the result is the
empty dataset, not an error. -/
theorem unified_dataset_order
    (results : String → Except HttpRequestError DF) (table : String → DF)
    (sched : List ℕ)
    (hperm : sched.Perm (List.range regionOrder.length))
    (hok : ∀ r, results r = Except.ok (table r)) :
    load_dashboard_data_async results sched =
      some (Except.ok (coerceNumeric
        (((regionOrder.map table).filter (fun d => !d.isEmpty)).flatten))) ∧
    ((∀ r ∈ regionOrder, table r = []) →
      load_dashboard_data_async results sched = some (Except.ok [])) := by
  have hmap : regionOrder.map results = (regionOrder.map table).map Except.ok := by
    rw [List.map_map]
    exact List.map_congr_left (fun r _ => hok r)
  have hg : gatherSched (regionOrder.map results) sched =
      some (regionOrder.map results) :=
    gatherSched_perm _ _ (by rw [List.length_map]; exact hperm)
  have hmain : load_dashboard_data_async results sched =
      some (Except.ok (coerceNumeric
        (((regionOrder.map table).filter (fun d => !d.isEmpty)).flatten))) := by
    rw [load_dashboard_data_async, hg, Option.map_some', hmap]
    simp only [load_dashboard_core, exceptSeq_map_ok]
  refine ⟨hmain, fun hemp => ?_⟩
  have hfilter : (regionOrder.map table).filter (fun d => !d.isEmpty) = [] := by
    rw [List.filter_eq_nil_iff]
    intro d hd
    obtain ⟨r, hr, rfl⟩ := List.mem_map.mp hd
    simp [hemp r hr]
  rw [hmain, hfilter]
  rfl

theorem unified_dataset_order_witness :
    load_dashboard_data_async wResults [4, 3, 2, 1, 0] =
      some (Except.ok (coerceNumeric
        (((regionOrder.map wTable).filter (fun d => !d.isEmpty)).flatten))) :=
  (unified_dataset_order wResults wTable [4, 3, 2, 1, 0]
    (by decide) (fun r => rfl)).1

theorem coerceNumeric_cellwise_witness :
    cellAt (coerceNumeric wMixedDF) 0 "name" = cellAt wMixedDF 0 "name" ∧
    cellAt (coerceNumeric wMixedDF) 0 "opens" = some Value.missing ∧
    cellAt (coerceNumeric wMixedDF) 0 "clicks" = some (Value.num 7) :=
  ⟨(coerceNumeric_cellwise wMixedDF 0 "name").1 (by decide),
   (coerceNumeric_cellwise wMixedDF 0 "opens").2.1 "abc" (by decide) (by decide) (by decide),
   (coerceNumeric_cellwise wMixedDF 0 "clicks").2.2.2.1 7 (by decide)⟩

end KlaviyoPulse
